import Mathlib

/-!
Verification of the RTO-tracker compliance engine.

The source manipulates JavaScript `Date` values at UTC midnight.  We model a
`Date` by its count of days since 1970-01-01 (an `Int`): every operation the
engine performs (`Date.UTC`, `setUTCDate`, `getUTCDay`, `getUTCFullYear`,
`getUTCMonth`, `getUTCDate`, comparisons, `toISOString` date part) is a
function of that day count, assuming the host runs at UTC offset 0 and years
are ≥ 100 (outside the two-digit-year quirk of the `Date` constructor).
ISO `YYYY-MM-DD` date strings compare lexicographically exactly as their day
counts compare, so entry date strings are modelled by day counts as well.

The civil (proleptic Gregorian) conversions `yearOf`/`monthOf`/`dayOf` and
`civilToDays` follow Hinnant's `civil_from_days` / `days_from_civil`
algorithms, which implement the ECMAScript UTC date computation.
-/

namespace RTO

/-! ## The civil calendar (model of the ECMAScript UTC `Date` accessors) -/

/-- Days-before-year inside a 400-year era of the March-based civil calendar:
`365*y + y/4 - y/100` for year-of-era `y` (the `doe`-from-`yoe` count in
Hinnant's algorithms). -/
def dby (y : Int) : Int := 365 * y + y / 4 - y / 100

/-- Hinnant's inner expression recovering the year of era from the day of era. -/
def gfun (doe : Int) : Int :=
  doe - doe / 1460 + doe / 36524 - doe / 146096

/-- Year of era from day of era (the `yoe` line of `civil_from_days`). -/
def yoeOf (doe : Int) : Int := gfun doe / 365

/-- 400-year era containing day `z` (days since 1970-01-01). -/
def eraOf (z : Int) : Int := (z + 719468) / 146097

/-- Day of era of day `z` (in `[0, 146096]`). -/
def doeOf (z : Int) : Int := z + 719468 - eraOf z * 146097

/-- Year of era of day `z`. -/
def yoeOfZ (z : Int) : Int := yoeOf (doeOf z)

/-- Day of (March-based) year of day `z`. -/
def doyOf (z : Int) : Int := doeOf z - dby (yoeOfZ z)

/-- March-based month index (`0` = March .. `11` = February) of day `z`. -/
def mpOf (z : Int) : Int := (5 * doyOf z + 2) / 153

/-- Civil month (1-12) of day `z`; models `getUTCMonth() + 1`. -/
def monthOf (z : Int) : Int := if mpOf z < 10 then mpOf z + 3 else mpOf z - 9

/-- Civil day of month (1-31) of day `z`; models `getUTCDate()`. -/
def dayOf (z : Int) : Int := doyOf z - (153 * mpOf z + 2) / 5 + 1

/-- Civil year of day `z`; models `getUTCFullYear()`. -/
def yearOf (z : Int) : Int :=
  if monthOf z ≤ 2 then yoeOfZ z + eraOf z * 400 + 1
  else yoeOfZ z + eraOf z * 400

/-- Days since 1970-01-01 of the civil date `(y, m, d)` (month 1-12);
Hinnant's `days_from_civil`, models `Date.UTC(y, m-1, d) / 86400000`. -/
def civilToDays (y m d : Int) : Int :=
  let y' := if m ≤ 2 then y - 1 else y
  let era := y' / 400
  let yoe := y' - era * 400
  let doy := (153 * (if m ≤ 2 then m + 9 else m - 3) + 2) / 5 + d - 1
  era * 146097 + dby yoe + doy - 719468

/-- Day of week of day `z` with `0` = Sunday .. `6` = Saturday; models
`getUTCDay()` (1970-01-01 was a Thursday). -/
def dow (z : Int) : Int := (z + 4) % 7

/-- Proof-side abbreviation: the day count of March 1 of civil year `Y` —
the common base of all `civilToDays Y m d` with `m ≥ 3`. -/
def marBase (Y : Int) : Int :=
  Y / 400 * 146097 + dby (Y - Y / 400 * 400) - 719468

/-! ## date-utils.ts -/

/-- `getWeekNumber(date)`: ISO week number of a date.  `Math.ceil(x / 7)` on
an integer `x` is written `(x + 6) / 7` (floor division). -/
def getWeekNumber (date : Int) : Int :=
  let dayNum := if dow date = 0 then 7 else dow date
  let d := date + 4 - dayNum
  let yearStart := civilToDays (yearOf d) 1 1
  (d - yearStart + 1 + 6) / 7

/-- `getWeekBounds(year, weekNumber)`: Monday and Sunday of the given week. -/
def getWeekBounds (year weekNumber : Int) : Int × Int :=
  let jan4 := civilToDays year 1 4
  let jan4Day := if dow jan4 = 0 then 7 else dow jan4
  let weekStart := jan4 - jan4Day + 1 + (weekNumber - 1) * 7
  (weekStart, weekStart + 6)

/-- `getQuarter(date)`: quarter (1-4) of a date.  `date.getMonth()` is the
zero-based month, i.e. `monthOf date - 1`. -/
def getQuarter (date : Int) : Int := (monthOf date - 1) / 3 + 1

/-- `getMondayOfWeek(year, weekNumber)`. -/
def getMondayOfWeek (year weekNumber : Int) : Int :=
  (getWeekBounds year weekNumber).1

/-- `getQuarterForWeek(year, weekNumber)`: the `(year, quarter)` a week
belongs to.  `new Date(year, 0, 1)` at UTC offset 0 denotes the same instant
as `Date.UTC(year, 0, 1)`. -/
def getQuarterForWeek (year weekNumber : Int) : Int × Int :=
  let b := getWeekBounds year weekNumber
  let jan1 := civilToDays year 1 1
  if b.1 ≤ jan1 ∧ jan1 ≤ b.2 then (year, 1)
  else (yearOf b.1, getQuarter b.1)

/-- The consecutive integers `s, s+1, ..., s+n-1`: the values visited by a
loop running from `s` while the counter stays at most `s + n - 1`. -/
def intsFrom (s : Int) : Nat → List Int
  | 0 => []
  | n + 1 => s :: intsFrom (s + 1) n

/-- `getWeeksInQuarter(year, quarter)`: scan week numbers 1..53 keeping those
assigned to `(year, quarter)`, prepend the previous year's week 53 when it
spills into Q1, then sort ascending.  JavaScript's stable
`sort((a, b) => a - b)` on a number array produces the unique ascending
reordering, computed here by `insertionSort`. -/
def getWeeksInQuarter (year quarter : Int) : List Int :=
  let weeks := (intsFrom 1 53).filter
    (fun w => decide (getQuarterForWeek year w = (year, quarter)))
  let weeks2 := if quarter = 1 ∧ getQuarterForWeek (year - 1) 53 = (year, 1)
    then 53 :: weeks else weeks
  weeks2.insertionSort (· ≤ ·)

/-- `toISODate(date)`: in the day-count model of well-formed `YYYY-MM-DD`
strings this is the identity. -/
def toISODate (z : Int) : Int := z

/-- `isWeekday(date)`: Monday-Friday.  At UTC offset 0, `getDay()` agrees
with `getUTCDay()`. -/
def isWeekday (z : Int) : Bool := decide (1 ≤ dow z ∧ dow z ≤ 5)

/-- `getWeekdays(year, weekNumber)`: all weekdays within the week bounds
(the source loops day by day from `start` while `current <= end`). -/
def getWeekdays (year weekNumber : Int) : List Int :=
  let b := getWeekBounds year weekNumber
  (intsFrom b.1 (b.2 + 1 - b.1).toNat).filter isWeekday

/-! ## types.ts -/

inductive WorkLocation where
  | office
  | home
  | vacation
  | sick
deriving DecidableEq, Repr

structure DayEntry where
  date : Int
  location : WorkLocation
  notes : Option String := none
deriving DecidableEq, Repr

structure ComplianceConfig where
  requiredOfficeDaysPerWeek : Int
  requiredCompliantWeeksPerQuarter : Int
  warningThresholdWeeks : Int
deriving DecidableEq, Repr

structure WeekSummary where
  weekNumber : Int
  year : Int
  startDate : Int
  endDate : Int
  officeDays : Int
  isCompliant : Bool
  days : List DayEntry
deriving DecidableEq, Repr

inductive ComplianceStatus where
  | compliant
  | warning
  | danger
deriving DecidableEq, Repr

structure QuarterSummary where
  quarter : Int
  year : Int
  compliantWeeks : Int
  totalWeeks : Int
  status : ComplianceStatus
  weeks : List WeekSummary
deriving DecidableEq, Repr

/-! ## compliance.ts -/

/-- `new Map(pairs).get(x)` for a list of day entries keyed by date: later
pairs overwrite earlier ones for a duplicated key; modelled by a left fold. -/
def mapGet (pairs : List DayEntry) : Int → Option DayEntry :=
  pairs.foldl (fun m e => fun x => if x = e.date then some e else m x)
    (fun _ => none)

/-- `calculateWeekSummary(year, weekNumber, config, allEntries)`. -/
def calculateWeekSummary (year weekNumber : Int) (config : ComplianceConfig)
    (allEntries : List DayEntry) : WeekSummary :=
  let b := getWeekBounds year weekNumber
  let startDate := toISODate b.1
  let endDate := toISODate b.2
  let weekdays := getWeekdays year weekNumber
  let loggedDays := allEntries.filter
    (fun e => decide (startDate ≤ e.date ∧ e.date ≤ endDate))
  let loggedMap := mapGet loggedDays
  let days := weekdays.map
    (fun date => (loggedMap date).getD ⟨date, WorkLocation.home, none⟩)
  let officeDays : Int :=
    (days.filter (fun e => decide (e.location = WorkLocation.office))).length
  let isCompliant := decide (config.requiredOfficeDaysPerWeek ≤ officeDays)
  ⟨weekNumber, year, startDate, endDate, officeDays, isCompliant, days⟩

/-- `calculateQuarterSummary(year, quarter, config, allEntries)`. -/
def calculateQuarterSummary (year quarter : Int) (config : ComplianceConfig)
    (allEntries : List DayEntry) : QuarterSummary :=
  let weekNumbers := getWeeksInQuarter year quarter
  let weeks := weekNumbers.map
    (fun weekNumber => calculateWeekSummary year weekNumber config allEntries)
  let compliantWeeks : Int := (weeks.filter (fun w => w.isCompliant)).length
  let totalWeeks : Int := weeks.length
  let status :=
    if config.requiredCompliantWeeksPerQuarter ≤ compliantWeeks then
      ComplianceStatus.compliant
    else if config.warningThresholdWeeks ≤ compliantWeeks then
      ComplianceStatus.warning
    else ComplianceStatus.danger
  ⟨quarter, year, compliantWeeks, totalWeeks, status, weeks⟩

/-- `calculateYearSummary(year, config, allEntries)`. -/
def calculateYearSummary (year : Int) (config : ComplianceConfig)
    (allEntries : List DayEntry) : List QuarterSummary :=
  ([1, 2, 3, 4] : List Int).map
    (fun q => calculateQuarterSummary year q config allEntries)

/-! ## Concrete test-input constructions (not from the source) -/

/-- Two office entries on the Monday and Tuesday of week `w` of `year`. -/
def officePair (year w : Int) : List DayEntry :=
  [⟨(getWeekBounds year w).1, WorkLocation.office, none⟩,
   ⟨(getWeekBounds year w).1 + 1, WorkLocation.office, none⟩]

/-- Office entries making each listed week of `year` compliant under a
two-office-days-per-week policy. -/
def officeWeeks (year : Int) (ws : List Int) : List DayEntry :=
  (ws.map (officePair year)).flatten

/-! ## Arithmetic helper lemmas -/

theorem ediv_mono_num {c a b : Int} (hc : 0 < c) (h : a ≤ b) :
    a / c ≤ b / c :=
  Int.ediv_le_ediv hc h

theorem ediv_succ_le {c : Int} (hc : 0 < c) (a : Int) :
    (a + 1) / c ≤ a / c + 1 := by
  have h1 : (a + 1 : Int) ≤ a + 1 * c := by omega
  have h2 := ediv_mono_num hc h1
  rwa [Int.add_mul_ediv_right a 1 (by omega : c ≠ 0)] at h2

/-! ## Correctness of the civil conversions -/

theorem gfun_step (a : Int) (h0 : 0 ≤ a) (h1 : a < 146096) :
    gfun a ≤ gfun (a + 1) := by
  by_cases hc : a = 146095
  · subst hc; decide
  · simp only [gfun]
    have hg : (a + 1) / 146096 = 0 := Int.ediv_eq_zero_of_lt (by omega) (by omega)
    have hh : a / 146096 = 0 := Int.ediv_eq_zero_of_lt (by omega) (by omega)
    have m1 := ediv_mono_num (c := 1460) (by norm_num) (show a ≤ a + 1 by omega)
    have m2 := ediv_mono_num (c := 36524) (by norm_num) (show a ≤ a + 1 by omega)
    have s1 := ediv_succ_le (c := 1460) (by norm_num) a
    omega

theorem gfun_mono_aux : ∀ (k : Nat) (a : Int), 0 ≤ a → a + k ≤ 146096 →
    gfun a ≤ gfun (a + k) := by
  intro k
  induction k with
  | zero => intro a _ _; simp
  | succ n ih =>
    intro a h0 h1
    have h2 := ih a h0 (by omega)
    have h3 := gfun_step (a + n) (by omega) (by omega)
    have h4 : a + (n + 1 : Nat) = a + n + 1 := by push_cast; ring
    rw [h4]
    omega

theorem gfun_mono {a b : Int} (h0 : 0 ≤ a) (hab : a ≤ b) (hb : b ≤ 146096) :
    gfun a ≤ gfun b := by
  have h := gfun_mono_aux (b - a).toNat a h0 (by omega)
  have h2 : a + ((b - a).toNat : Int) = b := by omega
  rw [h2] at h
  exact h

theorem yoeOf_mono {a b : Int} (h0 : 0 ≤ a) (hab : a ≤ b) (hb : b ≤ 146096) :
    yoeOf a ≤ yoeOf b := by
  unfold yoeOf
  exact ediv_mono_num (by norm_num) (gfun_mono h0 hab hb)

set_option maxRecDepth 4000 in
/-- Boundary check: at the last day of each year of era, `yoeOf` answers that
year. -/
theorem yoeOf_lastDay : ∀ n : Nat, n < 400 → yoeOf (dby (n + 1) - 1) = n := by
  decide

set_option maxRecDepth 4000 in
/-- Boundary check: at the first day of each year of era, `yoeOf` answers that
year. -/
theorem yoeOf_firstDay : ∀ n : Nat, n < 400 → yoeOf (dby n) = n := by
  decide

theorem dby_mono {a b : Int} (hab : a ≤ b) : dby a ≤ dby b := by
  simp only [dby]
  have m4 := ediv_mono_num (c := 4) (by norm_num) hab
  have m100 := ediv_mono_num (c := 100) (by norm_num) hab
  have hb : b ≤ a + (b - a) * 100 := by omega
  have h2 := ediv_mono_num (c := 100) (by norm_num) hb
  rw [Int.add_mul_ediv_right a (b - a) (by norm_num : (100:Int) ≠ 0)] at h2
  omega

theorem yoeOf_correct (doe : Int) (h0 : 0 ≤ doe) (h1 : doe ≤ 146096) :
    0 ≤ yoeOf doe ∧ yoeOf doe ≤ 399 ∧ dby (yoeOf doe) ≤ doe ∧
      doe - dby (yoeOf doe) ≤ 365 := by
  have hlow : yoeOf 0 ≤ yoeOf doe := yoeOf_mono le_rfl h0 h1
  have hhigh : yoeOf doe ≤ yoeOf 146096 := yoeOf_mono h0 h1 le_rfl
  have h0v : yoeOf 0 = 0 := by decide
  have h399 : yoeOf 146096 = 399 := by decide
  have hy0 : 0 ≤ yoeOf doe := by omega
  have hy399 : yoeOf doe ≤ 399 := by omega
  have hdby399 : dby 399 = 145731 := by decide
  have hdby0 : dby 0 = 0 := by decide
  refine ⟨hy0, hy399, ?_, ?_⟩
  · by_contra hlt
    push_neg at hlt
    have hy1 : 1 ≤ yoeOf doe := by
      rcases eq_or_lt_of_le hy0 with h | h
      · rw [← h] at hlt; omega
      · omega
    have hn := yoeOf_lastDay (yoeOf doe - 1).toNat (by omega)
    have hcast : ((yoeOf doe - 1).toNat : Int) = yoeOf doe - 1 := by omega
    rw [hcast, show (yoeOf doe - 1 : Int) + 1 = yoeOf doe by ring] at hn
    have hub : dby (yoeOf doe) - 1 ≤ 146096 := by
      have := dby_mono (show yoeOf doe ≤ 399 from hy399)
      omega
    have hmono := yoeOf_mono h0 (by omega : doe ≤ dby (yoeOf doe) - 1) hub
    omega
  · rcases eq_or_lt_of_le hy399 with htop | hlt399
    · rw [htop]; omega
    · by_contra hge
      push_neg at hge
      have hnext : dby (yoeOf doe + 1) ≤ dby (yoeOf doe) + 366 := by
        simp only [dby]
        have s4 := ediv_succ_le (c := 4) (by norm_num) (yoeOf doe)
        have m100 := ediv_mono_num (c := 100) (by norm_num)
          (show yoeOf doe ≤ yoeOf doe + 1 by omega)
        omega
      have hnn : 0 ≤ dby (yoeOf doe + 1) := by
        have := dby_mono (show (0 : Int) ≤ yoeOf doe + 1 by omega)
        omega
      have hn := yoeOf_firstDay (yoeOf doe + 1).toNat (by omega)
      have hcast : ((yoeOf doe + 1).toNat : Int) = yoeOf doe + 1 := by omega
      rw [hcast] at hn
      have hge' : dby (yoeOf doe + 1) ≤ doe := by omega
      have hmono := yoeOf_mono hnn hge' h1
      omega

theorem roundtrip_core (z z' era doe yoe doy mp som d m y Y : Int)
    (hz' : z' = z + 719468)
    (hdoe : doe = z' - era * 146097)
    (hyoe0 : 0 ≤ yoe) (hyoe399 : yoe ≤ 399)
    (hyoeL : dby yoe ≤ doe) (hyoeU : doe - dby yoe ≤ 365)
    (hdoy : doy = doe - dby yoe)
    (hmp : 153 * mp ≤ 5 * doy + 2 ∧ 5 * doy + 2 < 153 * mp + 153)
    (hsom : 5 * som ≤ 153 * mp + 2 ∧ 153 * mp + 2 < 5 * som + 5)
    (hd : d = doy - som + 1)
    (hm : m = if mp < 10 then mp + 3 else mp - 9)
    (hy : y = yoe + era * 400)
    (hY : Y = if m ≤ 2 then y + 1 else y) :
    civilToDays Y m d = z ∧ 1 ≤ m ∧ m ≤ 12 ∧ 1 ≤ d ∧ d ≤ 31 ∧
      (m = 2 → d ≤ 29) ∧
      ((m = 4 ∨ m = 6 ∨ m = 9 ∨ m = 11) → d ≤ 30) := by
  have hdoy0 : 0 ≤ doy := by omega
  have hdoy365 : doy ≤ 365 := by omega
  have hmpLB : 0 ≤ mp := by omega
  have hmpUB : mp ≤ 11 := by omega
  have hif : (if m ≤ 2 then m + 9 else m - 3) = mp := by
    split_ifs at hm ⊢ <;> omega
  have hyif : (if m ≤ 2 then Y - 1 else Y) = yoe + era * 400 := by
    split_ifs at hY hm ⊢ <;> omega
  have hera2 : (yoe + era * 400) / 400 = era := by omega
  have hsom' : (153 * mp + 2) / 5 = som := by omega
  refine ⟨?_, ?_, ?_, ?_, ?_, ?_, ?_⟩
  · simp only [civilToDays]
    rw [hyif, hera2, hif, hsom',
      show yoe + era * 400 - era * 400 = yoe by ring]
    omega
  · split_ifs at hm <;> omega
  · split_ifs at hm <;> omega
  · omega
  · omega
  · intro h2
    split_ifs at hm <;> omega
  · intro h2
    rcases h2 with h2 | h2 | h2 | h2 <;> split_ifs at hm <;> omega

/-- `civilToDays` is a right inverse of the civil-date extraction, and the
extracted month/day are in range (with the correct per-month day bounds). -/
theorem daysToCivil_spec (z : Int) :
    civilToDays (yearOf z) (monthOf z) (dayOf z) = z ∧
    1 ≤ monthOf z ∧ monthOf z ≤ 12 ∧ 1 ≤ dayOf z ∧ dayOf z ≤ 31 ∧
    (monthOf z = 2 → dayOf z ≤ 29) ∧
    ((monthOf z = 4 ∨ monthOf z = 6 ∨ monthOf z = 9 ∨ monthOf z = 11) →
      dayOf z ≤ 30) := by
  have hdoe0 : 0 ≤ doeOf z ∧ doeOf z ≤ 146096 := by
    unfold doeOf eraOf
    omega
  obtain ⟨h0, h1, h2, h3⟩ := yoeOf_correct (doeOf z) hdoe0.1 hdoe0.2
  exact roundtrip_core z (z + 719468) (eraOf z) (doeOf z) (yoeOfZ z) (doyOf z)
    (mpOf z) ((153 * mpOf z + 2) / 5) (dayOf z) (monthOf z)
    (yoeOfZ z + eraOf z * 400) (yearOf z)
    rfl rfl h0 h1 h2 h3 rfl
    (by unfold mpOf; omega)
    (by omega)
    rfl rfl rfl rfl

/-! ## Comparison toolkit for civil dates -/

theorem civil_ge3_eval (Y m d : Int) (h3 : 3 ≤ m) :
    civilToDays Y m d = marBase Y + (153 * (m - 3) + 2) / 5 + d - 1 := by
  simp only [civilToDays, marBase]
  rw [if_neg (by omega), if_neg (by omega)]
  ring

theorem civil_le2_eval (Y m d : Int) (h2 : m ≤ 2) :
    civilToDays Y m d = marBase (Y - 1) + (153 * (m + 9) + 2) / 5 + d - 1 := by
  simp only [civilToDays, marBase]
  rw [if_pos (by omega), if_pos (by omega)]
  ring

theorem jan1_eval (Y : Int) : civilToDays Y 1 1 = marBase (Y - 1) + 306 := by
  rw [civil_le2_eval Y 1 1 (by norm_num)]
  norm_num

theorem dec1_eval (Y : Int) : civilToDays Y 12 1 = marBase Y + 275 := by
  rw [civil_ge3_eval Y 12 1 (by norm_num)]
  norm_num

theorem dby_succ (y : Int) :
    365 ≤ dby (y + 1) - dby y ∧ dby (y + 1) - dby y ≤ 366 := by
  simp only [dby]
  omega

theorem era_step_core (a r b s : Int) (h1 : 0 ≤ r) (h2 : r ≤ 399)
    (h3 : 0 ≤ s) (h4 : s ≤ 399) (h5 : 400 * a + r + 1 = 400 * b + s) :
    365 ≤ 146097 * (b - a) + dby s - dby r ∧
      146097 * (b - a) + dby s - dby r ≤ 366 := by
  have hcase : (b = a ∧ s = r + 1) ∨ (b = a + 1 ∧ s = 0 ∧ r = 399) := by omega
  rcases hcase with ⟨hb, hs⟩ | ⟨hb, hs, hr⟩
  · subst hb hs
    have := dby_succ r
    omega
  · subst hb hs hr
    have hd0 : dby 0 = 0 := by decide
    have hd399 : dby 399 = 145731 := by decide
    omega

theorem marBase_succ (x : Int) :
    365 ≤ marBase (x + 1) - marBase x ∧ marBase (x + 1) - marBase x ≤ 366 := by
  have hstep := era_step_core (x / 400) (x - x / 400 * 400) ((x + 1) / 400)
    (x + 1 - (x + 1) / 400 * 400) (by omega) (by omega) (by omega) (by omega)
    (by omega)
  simp only [marBase]
  omega

theorem jan1_succ (Y : Int) :
    365 ≤ civilToDays (Y + 1) 1 1 - civilToDays Y 1 1 ∧
      civilToDays (Y + 1) 1 1 - civilToDays Y 1 1 ≤ 366 := by
  have h1 := jan1_eval Y
  have h2 := jan1_eval (Y + 1)
  have h3 := marBase_succ (Y - 1)
  rw [show Y - 1 + 1 = Y by ring] at h3
  rw [show Y + 1 - 1 = Y by ring] at h2
  omega

theorem jan1_mono_aux : ∀ (k : Nat) (Y : Int),
    civilToDays Y 1 1 ≤ civilToDays (Y + k) 1 1 := by
  intro k
  induction k with
  | zero => intro Y; simp
  | succ n ih =>
    intro Y
    have h1 := ih Y
    have h2 := jan1_succ (Y + n)
    have h3 : Y + (n + 1 : Nat) = Y + n + 1 := by push_cast; ring
    rw [h3]
    omega

theorem jan1_mono {Y1 Y2 : Int} (h : Y1 ≤ Y2) :
    civilToDays Y1 1 1 ≤ civilToDays Y2 1 1 := by
  have h1 := jan1_mono_aux (Y2 - Y1).toNat Y1
  have h2 : Y1 + ((Y2 - Y1).toNat : Int) = Y2 := by omega
  rw [h2] at h1
  exact h1

/-- Any valid civil date of year `Y` falls between January 1 of `Y`
(inclusive) and January 1 of `Y + 1` (exclusive). -/
theorem civil_box (Y m d : Int) (hm1 : 1 ≤ m) (hm2 : m ≤ 12)
    (hd1 : 1 ≤ d) (hd2 : d ≤ 31) :
    civilToDays Y 1 1 ≤ civilToDays Y m d ∧
      civilToDays Y m d < civilToDays (Y + 1) 1 1 := by
  have hj : civilToDays Y 1 1 = marBase (Y - 1) + 306 := jan1_eval Y
  have hj2 : civilToDays (Y + 1) 1 1 = marBase Y + 306 := by
    have := jan1_eval (Y + 1)
    rwa [show Y + 1 - 1 = Y by ring] at this
  have hms := marBase_succ (Y - 1)
  rw [show Y - 1 + 1 = Y by ring] at hms
  rcases le_or_lt m 2 with hm | hm
  · rw [civil_le2_eval Y m d hm]
    have hsom : 306 ≤ (153 * (m + 9) + 2) / 5 ∧ (153 * (m + 9) + 2) / 5 ≤ 337 := by
      omega
    omega
  · rw [civil_ge3_eval Y m d (by omega)]
    have hsom : 0 ≤ (153 * (m - 3) + 2) / 5 ∧ (153 * (m - 3) + 2) / 5 ≤ 275 := by
      omega
    omega

/-- The civil year of a day count between the two surrounding January 1sts. -/
theorem yearOf_eq (Y z : Int) (h1 : civilToDays Y 1 1 ≤ z)
    (h2 : z < civilToDays (Y + 1) 1 1) : yearOf z = Y := by
  obtain ⟨hrt, hm1, hm2, hd1, hd2, _, _⟩ := daysToCivil_spec z
  have hbox := civil_box (yearOf z) (monthOf z) (dayOf z) hm1 hm2 hd1 hd2
  by_contra hne
  rcases lt_or_gt_of_ne hne with hlt | hgt
  · have hmono := jan1_mono (show yearOf z + 1 ≤ Y by omega)
    omega
  · have hmono := jan1_mono (show Y + 1 ≤ yearOf z by omega)
    omega

/-- A day count between December 1 of `Y` (inclusive) and January 1 of `Y+1`
(exclusive) has civil month 12 and civil year `Y`. -/
theorem month12_char (Y z : Int) (h1 : civilToDays Y 12 1 ≤ z)
    (h2 : z < civilToDays (Y + 1) 1 1) : monthOf z = 12 ∧ yearOf z = Y := by
  have hd1e := dec1_eval Y
  have hj : civilToDays Y 1 1 = marBase (Y - 1) + 306 := jan1_eval Y
  have hj2 : civilToDays (Y + 1) 1 1 = marBase Y + 306 := by
    have := jan1_eval (Y + 1)
    rwa [show Y + 1 - 1 = Y by ring] at this
  have hms := marBase_succ (Y - 1)
  rw [show Y - 1 + 1 = Y by ring] at hms
  have hy : yearOf z = Y := yearOf_eq Y z (by omega) h2
  refine ⟨?_, hy⟩
  obtain ⟨hrt, hm1, hm2, hd1, hd2, h29, h30⟩ := daysToCivil_spec z
  rw [hy] at hrt
  by_contra hne
  have hm11 : monthOf z ≤ 11 := by omega
  rcases le_or_lt (monthOf z) 2 with hm | hm
  · rw [civil_le2_eval Y (monthOf z) (dayOf z) hm] at hrt
    have hsom : (153 * (monthOf z + 9) + 2) / 5 ≤ 337 := by omega
    omega
  · rw [civil_ge3_eval Y (monthOf z) (dayOf z) (by omega)] at hrt
    rcases eq_or_lt_of_le hm11 with h11 | h10
    · have hsom : (153 * (monthOf z - 3) + 2) / 5 ≤ 245 := by omega
      have hd30 : dayOf z ≤ 30 := h30 (by omega)
      omega
    · have hsom : (153 * (monthOf z - 3) + 2) / 5 ≤ 214 := by omega
      omega

/-! ## Week-bounds and weekday helper lemmas -/

theorem weekBounds_snd (year w : Int) :
    (getWeekBounds year w).2 = (getWeekBounds year w).1 + 6 := rfl

theorem jan4_eval (Y : Int) : civilToDays Y 1 4 = marBase (Y - 1) + 309 := by
  rw [civil_le2_eval Y 1 4 (by norm_num)]
  norm_num
  omega

theorem dow_weekStart (year w : Int) : dow (getWeekBounds year w).1 = 1 := by
  simp only [getWeekBounds, dow]
  split_ifs <;> omega

theorem intsFrom_seven (s : Int) :
    intsFrom s 7 = [s, s + 1, s + 2, s + 3, s + 4, s + 5, s + 6] := by
  simp only [show (7 : Nat) = 6 + 1 from rfl, show (6 : Nat) = 5 + 1 from rfl,
    show (5 : Nat) = 4 + 1 from rfl, show (4 : Nat) = 3 + 1 from rfl,
    show (3 : Nat) = 2 + 1 from rfl, show (2 : Nat) = 1 + 1 from rfl,
    show (1 : Nat) = 0 + 1 from rfl, intsFrom]
  norm_num
  omega

theorem mem_intsFrom : ∀ (n : Nat) (s x : Int),
    x ∈ intsFrom s n ↔ s ≤ x ∧ x < s + n := by
  intro n
  induction n with
  | zero =>
    intro s x
    simp only [intsFrom, List.not_mem_nil, false_iff]
    omega
  | succ k ih =>
    intro s x
    simp only [intsFrom, List.mem_cons, ih (s + 1) x]
    constructor
    · rintro (h | h) <;> omega
    · intro h
      rcases eq_or_lt_of_le h.1 with he | hlt
      · exact Or.inl he.symm
      · right
        omega

theorem getWeekdays_eq (year w : Int) :
    getWeekdays year w = [(getWeekBounds year w).1,
      (getWeekBounds year w).1 + 1, (getWeekBounds year w).1 + 2,
      (getWeekBounds year w).1 + 3, (getWeekBounds year w).1 + 4] := by
  have hmon := dow_weekStart year w
  simp only [dow] at hmon
  have hlen : ((getWeekBounds year w).2 + 1 - (getWeekBounds year w).1).toNat
      = 7 := by
    rw [weekBounds_snd]
    omega
  simp only [getWeekdays, hlen, intsFrom_seven]
  have e0 : isWeekday (getWeekBounds year w).1 = true := by
    simp only [isWeekday, dow, decide_eq_true_eq]
    omega
  have e1 : isWeekday ((getWeekBounds year w).1 + 1) = true := by
    simp only [isWeekday, dow, decide_eq_true_eq]
    omega
  have e2 : isWeekday ((getWeekBounds year w).1 + 2) = true := by
    simp only [isWeekday, dow, decide_eq_true_eq]
    omega
  have e3 : isWeekday ((getWeekBounds year w).1 + 3) = true := by
    simp only [isWeekday, dow, decide_eq_true_eq]
    omega
  have e4 : isWeekday ((getWeekBounds year w).1 + 4) = true := by
    simp only [isWeekday, dow, decide_eq_true_eq]
    omega
  have e5 : isWeekday ((getWeekBounds year w).1 + 5) = false := by
    simp only [isWeekday, dow, decide_eq_false_iff_not]
    omega
  have e6 : isWeekday ((getWeekBounds year w).1 + 6) = false := by
    simp only [isWeekday, dow, decide_eq_false_iff_not]
    omega
  simp only [List.filter, e0, e1, e2, e3, e4, e5, e6]

/-! ## Map-lookup lemmas -/

theorem mapGet_foldl (l : List DayEntry) (acc : Int → Option DayEntry)
    (x : Int) :
    (List.foldl (fun m e => fun y => if y = e.date then some e else m y)
        acc l) x =
      ((l.filter (fun e => decide (x = e.date))).getLast?).or (acc x) := by
  induction l using List.reverseRecOn generalizing acc with
  | nil => simp
  | append_singleton t e ih =>
    rw [List.foldl_append, List.filter_append, List.filter_singleton]
    simp only [List.foldl_cons, List.foldl_nil]
    by_cases hx : x = e.date
    · have hd : decide (x = e.date) = true := by simp [hx]
      rw [if_pos hx, hd, cond_true, List.getLast?_concat]
      rfl
    · have hd : decide (x = e.date) = false := by simp [hx]
      rw [if_neg hx, hd, cond_false, List.append_nil]
      exact ih acc

theorem mapGet_eq (l : List DayEntry) (x : Int) :
    mapGet l x = (l.filter (fun e => decide (x = e.date))).getLast? := by
  unfold mapGet
  rw [mapGet_foldl]
  cases (l.filter (fun e => decide (x = e.date))).getLast? <;> rfl

theorem getLast?_mem_of_eq {α : Type} {l : List α} {a : α}
    (h : l.getLast? = some a) : a ∈ l := by
  induction l with
  | nil => simp at h
  | cons b t ih =>
    cases t with
    | nil =>
      simp only [List.getLast?_singleton, Option.some.injEq] at h
      simp [h]
    | cons c t2 =>
      rw [List.getLast?_cons_cons] at h
      exact List.mem_cons_of_mem b (ih h)

theorem mapGet_date {l : List DayEntry} {x : Int} {e : DayEntry}
    (h : mapGet l x = some e) : e.date = x := by
  rw [mapGet_eq] at h
  have hm := getLast?_mem_of_eq h
  have := List.of_mem_filter hm
  simp only [decide_eq_true_eq] at this
  omega

/-! ## Week-summary characterization -/

set_option maxRecDepth 8000 in
/-- The `days` list of a week summary: one record per weekday, taken as the
last entry of `allEntries` with that date, defaulting to a home entry. -/
theorem weekSummary_days_char (year w : Int) (config : ComplianceConfig)
    (allEntries : List DayEntry) :
    (calculateWeekSummary year w config allEntries).days =
      (getWeekdays year w).map (fun d =>
        ((allEntries.filter (fun e => decide (e.date = d))).getLast?).getD
          ⟨d, WorkLocation.home, none⟩) := by
  simp only [calculateWeekSummary]
  apply List.map_congr_left
  intro d hd
  have hdb : (getWeekBounds year w).1 ≤ d ∧ d ≤ (getWeekBounds year w).2 := by
    rw [getWeekdays_eq] at hd
    have h6 := weekBounds_snd year w
    simp only [List.mem_cons, List.not_mem_nil, or_false] at hd
    rcases hd with h | h | h | h | h <;> omega
  rw [mapGet_eq]
  have hfil : (allEntries.filter (fun e =>
        decide (toISODate (getWeekBounds year w).1 ≤ e.date ∧
          e.date ≤ toISODate (getWeekBounds year w).2))).filter
        (fun e => decide (d = e.date)) =
      allEntries.filter (fun e => decide (e.date = d)) := by
    rw [List.filter_filter]
    apply List.filter_congr
    intro e he
    by_cases hx : e.date = d
    · have b1 : decide (d = e.date) = true := by simp [hx]
      have b2 : decide (toISODate (getWeekBounds year w).1 ≤ e.date ∧
          e.date ≤ toISODate (getWeekBounds year w).2) = true := by
        simp only [toISODate, decide_eq_true_eq]
        omega
      have b3 : decide (e.date = d) = true := by simp [hx]
      rw [b1, b2, b3]
      rfl
    · have b1 : decide (d = e.date) = false := by
        simp only [decide_eq_false_iff_not]
        omega
      have b3 : decide (e.date = d) = false := by
        simp only [decide_eq_false_iff_not]
        omega
      rw [b1, b3]
      rfl
  rw [hfil]

/-! ## Quarter-assignment lemmas -/

theorem weekStart_formula (Y w : Int) :
    (getWeekBounds Y w).1 = civilToDays Y 1 4 -
      (if dow (civilToDays Y 1 4) = 0 then 7 else dow (civilToDays Y 1 4)) +
      1 + (w - 1) * 7 := rfl

theorem weekStart_bounds (Y w : Int) :
    civilToDays Y 1 1 + 4 - 7 + (w - 1) * 7 ≤ (getWeekBounds Y w).1 ∧
      (getWeekBounds Y w).1 ≤ civilToDays Y 1 1 + 3 + (w - 1) * 7 := by
  rw [weekStart_formula]
  have hj4 := jan4_eval Y
  have hj1 := jan1_eval Y
  split_ifs with h
  · omega
  · simp only [dow] at h ⊢
    omega

theorem mem_getWeeksInQuarter (Y q w : Int) :
    w ∈ getWeeksInQuarter Y q ↔
      ((getQuarterForWeek Y w = (Y, q) ∧ 1 ≤ w ∧ w ≤ 53) ∨
       (w = 53 ∧ q = 1 ∧ getQuarterForWeek (Y - 1) 53 = (Y, 1))) := by
  simp only [getWeeksInQuarter]
  rw [(List.perm_insertionSort _ _).mem_iff]
  by_cases hc : q = 1 ∧ getQuarterForWeek (Y - 1) 53 = (Y, 1)
  · rw [if_pos hc]
    simp only [List.mem_cons, List.mem_filter, mem_intsFrom,
      decide_eq_true_eq]
    constructor
    · rintro (h53 | ⟨hi, hq⟩)
      · exact Or.inr ⟨h53, hc.1, hc.2⟩
      · exact Or.inl ⟨hq, by omega⟩
    · rintro (⟨hq, hw1, hw2⟩ | ⟨h53, _, _⟩)
      · exact Or.inr ⟨⟨by omega, by omega⟩, hq⟩
      · exact Or.inl h53
  · rw [if_neg hc]
    simp only [List.mem_filter, mem_intsFrom, decide_eq_true_eq]
    constructor
    · rintro ⟨hi, hq⟩
      exact Or.inl ⟨hq, by omega⟩
    · rintro (⟨hq, hw1, hw2⟩ | ⟨h53, hq1, hsp⟩)
      · exact ⟨⟨by omega, by omega⟩, hq⟩
      · exact absurd ⟨hq1, hsp⟩ hc

/-- A week number in `1..52` is assigned to a quarter of its own `year`. -/
theorem quarterForWeek_fst (Y w : Int) (h1 : 1 ≤ w) (h2 : w ≤ 52) :
    (getQuarterForWeek Y w).1 = Y ∧ 1 ≤ (getQuarterForWeek Y w).2 ∧
      (getQuarterForWeek Y w).2 ≤ 4 := by
  have hb := weekStart_bounds Y w
  have hsnd := weekBounds_snd Y w
  have hjs := jan1_succ Y
  simp only [getQuarterForWeek]
  split_ifs with hcont
  · exact ⟨rfl, by norm_num, by norm_num⟩
  · have hgt : civilToDays Y 1 1 < (getWeekBounds Y w).1 := by omega
    have hub : (getWeekBounds Y w).1 < civilToDays (Y + 1) 1 1 := by omega
    have hy := yearOf_eq Y _ (le_of_lt hgt) hub
    obtain ⟨_, hm1, hm2, _, _, _, _⟩ := daysToCivil_spec (getWeekBounds Y w).1
    refine ⟨hy, ?_, ?_⟩ <;> simp only [getQuarter] <;> omega

/-- Week 53 of `Y` is assigned to `(Y, 4)` when its Monday still falls in
year `Y`, and to a pair with year `Y + 1` otherwise. -/
theorem quarterForWeek_53 (Y : Int) :
    (yearOf (getWeekBounds Y 53).1 = Y ∧ getQuarterForWeek Y 53 = (Y, 4)) ∨
    (yearOf (getWeekBounds Y 53).1 = Y + 1 ∧
      (getQuarterForWeek Y 53).1 = Y + 1) := by
  have hb := weekStart_bounds Y 53
  have hsnd := weekBounds_snd Y 53
  have hjs := jan1_succ Y
  have hjs2 := jan1_succ (Y + 1)
  have hdec := dec1_eval Y
  have hj1 := jan1_eval Y
  have hj2 : civilToDays (Y + 1) 1 1 = marBase Y + 306 := by
    have := jan1_eval (Y + 1)
    rwa [show Y + 1 - 1 = Y by ring] at this
  have hms := marBase_succ (Y - 1)
  rw [show Y - 1 + 1 = Y by ring] at hms
  have hcont : ¬((getWeekBounds Y 53).1 ≤ civilToDays Y 1 1 ∧
      civilToDays Y 1 1 ≤ (getWeekBounds Y 53).2) := by omega
  rcases lt_or_le (getWeekBounds Y 53).1 (civilToDays (Y + 1) 1 1) with hlt | hge
  · obtain ⟨hm12, hy⟩ := month12_char Y _ (by omega) hlt
    left
    refine ⟨hy, ?_⟩
    simp only [getQuarterForWeek]
    rw [if_neg hcont, Prod.ext_iff]
    refine ⟨hy, ?_⟩
    simp only [getQuarter, hm12]
    norm_num
  · right
    have hy : yearOf (getWeekBounds Y 53).1 = Y + 1 :=
      yearOf_eq (Y + 1) _ hge (by omega)
    refine ⟨hy, ?_⟩
    simp only [getQuarterForWeek]
    rw [if_neg hcont]
    exact hy

/-- In a sorted list, a member that bounds every element is the last one. -/
theorem sorted_getLast?_max : ∀ (l : List Int),
    l.Sorted (fun a b => a ≤ b) → ∀ x : Int, x ∈ l → (∀ y ∈ l, y ≤ x) →
      l.getLast? = some x := by
  intro l
  induction l with
  | nil => intro _ x hx _; cases hx
  | cons a t ih =>
    intro hs x hx hmax
    rw [List.sorted_cons] at hs
    cases t with
    | nil =>
      simp only [List.mem_singleton] at hx
      subst hx
      rfl
    | cons b t2 =>
      rw [List.getLast?_cons_cons]
      apply ih hs.2 x ?_ ?_
      · rcases List.mem_cons.mp hx with hxa | hxt
        · have hab : a ≤ b := hs.1 b (List.mem_cons_self b t2)
          have hbx : b ≤ x :=
            hmax b (List.mem_cons_of_mem a (List.mem_cons_self b t2))
          have hbe : b = x := by omega
          rw [← hbe]
          exact List.mem_cons_self b t2
        · exact hxt
      · intro y hy
        exact hmax y (List.mem_cons_of_mem a hy)

/-! ## Accessor equations for the week summary -/

theorem weekSummary_startDate (y w : Int) (c : ComplianceConfig)
    (a : List DayEntry) :
    (calculateWeekSummary y w c a).startDate = (getWeekBounds y w).1 := rfl

theorem weekSummary_endDate (y w : Int) (c : ComplianceConfig)
    (a : List DayEntry) :
    (calculateWeekSummary y w c a).endDate = (getWeekBounds y w).2 := rfl

theorem weekSummary_officeDays (y w : Int) (c : ComplianceConfig)
    (a : List DayEntry) :
    (calculateWeekSummary y w c a).officeDays =
      (((calculateWeekSummary y w c a).days.filter
        (fun e => decide (e.location = WorkLocation.office))).length : Int) :=
  rfl

theorem weekSummary_isCompliant (y w : Int) (c : ComplianceConfig)
    (a : List DayEntry) :
    (calculateWeekSummary y w c a).isCompliant =
      decide (c.requiredOfficeDaysPerWeek ≤
        (calculateWeekSummary y w c a).officeDays) := rfl

theorem mem_getWeekdays_isWeekday {year w d : Int}
    (hd : d ∈ getWeekdays year w) : isWeekday d = true := by
  have hd2 : d ∈ (intsFrom (getWeekBounds year w).1
      ((getWeekBounds year w).2 + 1 - (getWeekBounds year w).1).toNat).filter
      isWeekday := hd
  exact List.of_mem_filter hd2

theorem mem_getWeekdays_bounds {year w d : Int}
    (hd : d ∈ getWeekdays year w) :
    (getWeekBounds year w).1 ≤ d ∧ d ≤ (getWeekBounds year w).2 := by
  rw [getWeekdays_eq] at hd
  have h6 := weekBounds_snd year w
  simp only [List.mem_cons, List.not_mem_nil, or_false] at hd
  rcases hd with h | h | h | h | h <;> omega

/-! ## Claim theorems -/

/-- Claim C1: for every `(year, weekNumber)`, `getQuarterForWeek` returns
`(year, Q1)` when the week's date bounds contain January 1 of `year`, and
otherwise returns the Monday's own year paired with
`floor(zero-based month / 3) + 1`; in particular `getQuarterForWeek(2025, 1)`
resolves to `(2025, Q1)` even though that week's Monday is 2024-12-30. -/
theorem claim_C1_getQuarterForWeek (year weekNumber : Int) :
    (((getWeekBounds year weekNumber).1 ≤ civilToDays year 1 1 ∧
        civilToDays year 1 1 ≤ (getWeekBounds year weekNumber).2) →
      getQuarterForWeek year weekNumber = (year, 1)) ∧
    (¬((getWeekBounds year weekNumber).1 ≤ civilToDays year 1 1 ∧
        civilToDays year 1 1 ≤ (getWeekBounds year weekNumber).2) →
      getQuarterForWeek year weekNumber =
        (yearOf (getWeekBounds year weekNumber).1,
          (monthOf (getWeekBounds year weekNumber).1 - 1) / 3 + 1)) ∧
    getQuarterForWeek 2025 1 = (2025, 1) ∧
    (getWeekBounds 2025 1).1 = civilToDays 2024 12 30 := by
  refine ⟨?_, ?_, by decide, by decide⟩
  · intro h
    simp only [getQuarterForWeek]
    rw [if_pos h]
  · intro h
    simp only [getQuarterForWeek]
    rw [if_neg h]
    rfl

theorem claim_C1_getQuarterForWeek_witness :
    getQuarterForWeek 2025 1 = (2025, 1) :=
  (claim_C1_getQuarterForWeek 2025 1).1 (by decide)

/-- Claim C2: `getWeekBounds(year, weekNumber)` starts at January 4 shifted back
by `(weekday of January 4, Monday=1..Sunday=7) - 1` days and forward by
`(weekNumber - 1) * 7` days, and ends 6 days later; in particular
`getWeekBounds(2025, 1)` is Monday 2024-12-30 .. Sunday 2025-01-05. -/
theorem claim_C2_getWeekBounds (year weekNumber : Int) :
    getWeekBounds year weekNumber =
      (civilToDays year 1 4 -
          ((if dow (civilToDays year 1 4) = 0 then 7
            else dow (civilToDays year 1 4)) - 1) + (weekNumber - 1) * 7,
       civilToDays year 1 4 -
          ((if dow (civilToDays year 1 4) = 0 then 7
            else dow (civilToDays year 1 4)) - 1) + (weekNumber - 1) * 7
          + 6) ∧
    getWeekBounds 2025 1 = (civilToDays 2024 12 30, civilToDays 2025 1 5) := by
  refine ⟨?_, by decide⟩
  rw [Prod.ext_iff]
  constructor <;> simp only [getWeekBounds] <;> ring

/-- Claim C9: for a valid `(year, week)` whose Monday is not reassigned to a
different year by the ISO rule (its week-defining Thursday lies in `year`),
`getWeekNumber` applied to that Monday returns `week`. -/
theorem claim_C9_roundtrip (year weekNumber : Int) (h1 : 1 ≤ weekNumber)
    (h2 : weekNumber ≤ 53)
    (hiso : yearOf ((getWeekBounds year weekNumber).1 + 3) = year) :
    getWeekNumber (getWeekBounds year weekNumber).1 = weekNumber := by
  have hmon := dow_weekStart year weekNumber
  have hj4 := jan4_eval year
  have hj1 := jan1_eval year
  have hsf := weekStart_formula year weekNumber
  have hj4d : 1 ≤ (if dow (civilToDays year 1 4) = 0 then 7
        else dow (civilToDays year 1 4)) ∧
      (if dow (civilToDays year 1 4) = 0 then 7
        else dow (civilToDays year 1 4)) ≤ 7 := by
    simp only [dow]
    split_ifs <;> omega
  simp only [getWeekNumber, hmon]
  rw [if_neg (by norm_num : ¬(1 : Int) = 0)]
  simp only [show ∀ x : Int, x + 4 - 1 = x + 3 from fun x => by ring]
  rw [hiso]
  omega

theorem claim_C9_roundtrip_witness : getWeekNumber (getWeekBounds 2025 1).1 = 1 :=
  claim_C9_roundtrip 2025 1 (by decide) (by decide) (by decide)

/-- Claim C10: for duplicated dates in `allEntries`, the later entry wins: each
weekday's record in `days` is the LAST entry of `allEntries` carrying that
date (defaulting to a home entry), and the output has exactly one day entry
per weekday. -/
theorem claim_C10_last_duplicate_wins (year weekNumber : Int)
    (config : ComplianceConfig) (allEntries : List DayEntry) :
    (calculateWeekSummary year weekNumber config allEntries).days =
      (getWeekdays year weekNumber).map (fun d =>
        ((allEntries.filter (fun e => decide (e.date = d))).getLast?).getD
          ⟨d, WorkLocation.home, none⟩) ∧
    (calculateWeekSummary year weekNumber config allEntries).days.length =
      (getWeekdays year weekNumber).length := by
  refine ⟨weekSummary_days_char year weekNumber config allEntries, ?_⟩
  rw [weekSummary_days_char year weekNumber config allEntries]
  exact List.length_map _ _

/-- Claim C3 (counterexample): for year 2018 the week number 53 appears in BOTH
the Q1 list (as spillover of 2017's "week 53") and the Q4 list (a phantom
week whose Monday 2018-12-31 yields ISO week 1 of 2019), so the four
quarter lists do not partition the ISO week numbers of 2018 with each number
in exactly one list: ISO 2018 has no week 53 (December 28 and 31 of 2018
get week numbers 52 and 1). -/
theorem claim_C3_counterexample :
    (53 : Int) ∈ getWeeksInQuarter 2018 1 ∧
    (53 : Int) ∈ getWeeksInQuarter 2018 4 ∧
    getWeekNumber (civilToDays 2018 12 28) = 52 ∧
    getWeekNumber (civilToDays 2018 12 31) = 1 := by
  decide

/-- Claim C3 (amended): for every year `Y`, the week numbers 1..52 are partitioned
exactly (each appears in exactly one of the four quarter lists); the number
53 appears in the Q4 list exactly when the Monday computed for `(Y, 53)`
still falls in year `Y` (which can be a phantom week when ISO year `Y` has
only 52 weeks), never appears in the Q2 or Q3 lists, and appears in the Q1
list exactly when the previous year's week 53 resolves to `(Y, Q1)` — so 53
can appear in two lists at once. -/
theorem claim_C3_amended (Y : Int) :
    (∀ w : Int, 1 ≤ w → w ≤ 52 →
      ∃ q : Int, 1 ≤ q ∧ q ≤ 4 ∧ w ∈ getWeeksInQuarter Y q ∧
        ∀ q' : Int, 1 ≤ q' → q' ≤ 4 → w ∈ getWeeksInQuarter Y q' → q' = q) ∧
    ((53 : Int) ∈ getWeeksInQuarter Y 4 ↔
      yearOf (getMondayOfWeek Y 53) = Y) ∧
    (53 : Int) ∉ getWeeksInQuarter Y 2 ∧
    (53 : Int) ∉ getWeeksInQuarter Y 3 ∧
    ((53 : Int) ∈ getWeeksInQuarter Y 1 ↔
      getQuarterForWeek (Y - 1) 53 = (Y, 1)) := by
  simp only [getMondayOfWeek]
  refine ⟨?_, ?_, ?_, ?_, ?_⟩
  · intro w h1 h2
    obtain ⟨hfst, hq1, hq4⟩ := quarterForWeek_fst Y w h1 h2
    refine ⟨(getQuarterForWeek Y w).2, hq1, hq4, ?_, ?_⟩
    · rw [mem_getWeeksInQuarter]
      refine Or.inl ⟨?_, h1, by omega⟩
      rw [Prod.ext_iff]
      exact ⟨hfst, rfl⟩
    · intro q2 _ _ hmem
      rw [mem_getWeeksInQuarter] at hmem
      rcases hmem with ⟨heq, _, _⟩ | ⟨h53, _, _⟩
      · rw [heq]
      · omega
  · rcases quarterForWeek_53 Y with ⟨hy, hq⟩ | ⟨hy, hfst⟩
    · constructor
      · intro _
        exact hy
      · intro _
        rw [mem_getWeeksInQuarter]
        exact Or.inl ⟨hq, by norm_num, by norm_num⟩
    · constructor
      · intro hmem
        rw [mem_getWeeksInQuarter] at hmem
        rcases hmem with ⟨heq, _, _⟩ | ⟨_, hq14, _⟩
        · rw [heq] at hfst
          exfalso
          have hYY : Y = Y + 1 := hfst
          omega
        · omega
      · intro hyy
        exfalso
        omega
  · intro hmem
    rw [mem_getWeeksInQuarter] at hmem
    rcases hmem with ⟨heq, _, _⟩ | ⟨_, hq, _⟩
    · rcases quarterForWeek_53 Y with ⟨_, hq4⟩ | ⟨_, hfst⟩
      · have hcontra := hq4.symm.trans heq
        rw [Prod.ext_iff] at hcontra
        have h42 : (4 : Int) = 2 := hcontra.2
        omega
      · rw [heq] at hfst
        have hYY : Y = Y + 1 := hfst
        omega
    · omega
  · intro hmem
    rw [mem_getWeeksInQuarter] at hmem
    rcases hmem with ⟨heq, _, _⟩ | ⟨_, hq, _⟩
    · rcases quarterForWeek_53 Y with ⟨_, hq4⟩ | ⟨_, hfst⟩
      · have hcontra := hq4.symm.trans heq
        rw [Prod.ext_iff] at hcontra
        have h43 : (4 : Int) = 3 := hcontra.2
        omega
      · rw [heq] at hfst
        have hYY : Y = Y + 1 := hfst
        omega
    · omega
  · constructor
    · intro hmem
      rw [mem_getWeeksInQuarter] at hmem
      rcases hmem with ⟨heq, _, _⟩ | ⟨_, _, hsp⟩
      · exfalso
        rcases quarterForWeek_53 Y with ⟨_, hq4⟩ | ⟨_, hfst⟩
        · have hcontra := hq4.symm.trans heq
          rw [Prod.ext_iff] at hcontra
          have h41 : (4 : Int) = 1 := hcontra.2
          omega
        · rw [heq] at hfst
          have hYY : Y = Y + 1 := hfst
          omega
      · exact hsp
    · intro hsp
      rw [mem_getWeeksInQuarter]
      exact Or.inr ⟨rfl, rfl, hsp⟩

theorem claim_C3_amended_witness :
    ∃ q : Int, 1 ≤ q ∧ q ≤ 4 ∧ (30 : Int) ∈ getWeeksInQuarter 2025 q ∧
      ∀ q' : Int, 1 ≤ q' → q' ≤ 4 → (30 : Int) ∈ getWeeksInQuarter 2025 q' →
        q' = q :=
  (claim_C3_amended 2025).1 30 (by decide) (by decide)

/-- Claim C4 (counterexample): for year 2022 the previous year's week 53 does
spill into Q1, yet the returned list is `[1, ..., 13, 53]` — the value 53
occupies the LAST position, not the first. -/
theorem claim_C4_counterexample :
    getQuarterForWeek 2021 53 = (2022, 1) ∧
    getWeeksInQuarter 2022 1 =
      [1, 2, 3, 4, 5, 6, 7, 8, 9, 10, 11, 12, 13, 53] := by
  decide

/-- Claim C4 (amended): whenever the previous year's week 53 spills into
`(Y, Q1)`, the returned Q1 list contains 53, is ascending by week number,
and 53 occupies the LAST (highest) position, after the year's own week
numbers. -/
theorem claim_C4_amended (Y : Int)
    (hspill : getQuarterForWeek (Y - 1) 53 = (Y, 1)) :
    List.Sorted (fun a b => a ≤ b) (getWeeksInQuarter Y 1) ∧
    (53 : Int) ∈ getWeeksInQuarter Y 1 ∧
    (getWeeksInQuarter Y 1).getLast? = some 53 := by
  have hsorted : List.Sorted (fun a b => a ≤ b) (getWeeksInQuarter Y 1) := by
    simp only [getWeeksInQuarter]
    exact List.sorted_insertionSort _ _
  have hmem : (53 : Int) ∈ getWeeksInQuarter Y 1 :=
    (mem_getWeeksInQuarter Y 1 53).mpr (Or.inr ⟨rfl, rfl, hspill⟩)
  refine ⟨hsorted, hmem, ?_⟩
  apply sorted_getLast?_max _ hsorted 53 hmem
  intro y hy
  rw [mem_getWeeksInQuarter] at hy
  rcases hy with ⟨_, _, h53⟩ | ⟨h53, _, _⟩ <;> omega

theorem claim_C4_amended_witness :
    List.Sorted (fun a b => a ≤ b) (getWeeksInQuarter 2022 1) ∧
    (53 : Int) ∈ getWeeksInQuarter 2022 1 ∧
    (getWeeksInQuarter 2022 1).getLast? = some 53 :=
  claim_C4_amended 2022 (by decide)

/-- Claim C5 fails on the code (code bug): 2021's week 53 spills into `(2022, Q1)`
and 53 is listed in `getWeeksInQuarter 2022 1`, but `calculateQuarterSummary
2022 1` then summarizes `(2022, 53)` — whose bounds are Monday 2023-01-02 ..
Sunday 2023-01-08, a week assigned to `(2023, Q1)`, not `(2022, Q1)` and not
the spilled-in week Jan 3-9, 2022. -/
theorem claim_C5_week53_bug :
    getQuarterForWeek 2021 53 = (2022, 1) ∧
    (53 : Int) ∈ getWeeksInQuarter 2022 1 ∧
    ((calculateQuarterSummary 2022 1 ⟨2, 8, 7⟩ []).weeks.map
        (fun w => (w.weekNumber, w.startDate, w.endDate))).getLast? =
      some (53, civilToDays 2023 1 2, civilToDays 2023 1 8) ∧
    getQuarterForWeek 2022 53 = (2023, 1) := by
  decide

/-- Claim C6: `calculateQuarterSummary` sets `compliantWeeks` to the number of
compliant weeks, `totalWeeks` to the length of `weeks`, and `status` by the
precedence compliant / warning / danger; with config `{2, 8, 7}` a 13-week
quarter with 9, 7 and 5 compliant weeks gets status compliant, warning and
danger respectively. -/
theorem claim_C6_quarter_status (year quarter : Int)
    (config : ComplianceConfig) (allEntries : List DayEntry) :
    ((calculateQuarterSummary year quarter config allEntries).compliantWeeks =
        (((calculateQuarterSummary year quarter config allEntries).weeks.filter
          (fun w => w.isCompliant)).length : Int) ∧
      (calculateQuarterSummary year quarter config allEntries).totalWeeks =
        ((calculateQuarterSummary year quarter config
          allEntries).weeks.length : Int) ∧
      (calculateQuarterSummary year quarter config allEntries).status =
        (if config.requiredCompliantWeeksPerQuarter ≤
            (calculateQuarterSummary year quarter config
              allEntries).compliantWeeks
          then ComplianceStatus.compliant
          else if config.warningThresholdWeeks ≤
              (calculateQuarterSummary year quarter config
                allEntries).compliantWeeks
            then ComplianceStatus.warning
            else ComplianceStatus.danger)) ∧
    ((calculateQuarterSummary 2025 2 ⟨2, 8, 7⟩ (officeWeeks 2025
        [15, 16, 17, 18, 19, 20, 21, 22, 23])).compliantWeeks = 9 ∧
      (calculateQuarterSummary 2025 2 ⟨2, 8, 7⟩ (officeWeeks 2025
        [15, 16, 17, 18, 19, 20, 21, 22, 23])).totalWeeks = 13 ∧
      (calculateQuarterSummary 2025 2 ⟨2, 8, 7⟩ (officeWeeks 2025
        [15, 16, 17, 18, 19, 20, 21, 22, 23])).status =
        ComplianceStatus.compliant) ∧
    ((calculateQuarterSummary 2025 2 ⟨2, 8, 7⟩ (officeWeeks 2025
        [15, 16, 17, 18, 19, 20, 21])).compliantWeeks = 7 ∧
      (calculateQuarterSummary 2025 2 ⟨2, 8, 7⟩ (officeWeeks 2025
        [15, 16, 17, 18, 19, 20, 21])).status = ComplianceStatus.warning) ∧
    ((calculateQuarterSummary 2025 2 ⟨2, 8, 7⟩ (officeWeeks 2025
        [15, 16, 17, 18, 19])).compliantWeeks = 5 ∧
      (calculateQuarterSummary 2025 2 ⟨2, 8, 7⟩ (officeWeeks 2025
        [15, 16, 17, 18, 19])).status = ComplianceStatus.danger) := by
  refine ⟨⟨rfl, rfl, rfl⟩, by decide, by decide, by decide⟩

/-- Claim C7: a week with no matching entry has `officeDays = 0`, is not compliant
for any `requiredOfficeDaysPerWeek ≥ 1`, and its `days` list is exactly the
5 weekdays Monday-Friday, each defaulted to location home; `days.length`
always equals the number of weekdays in the bounds. -/
theorem claim_C7_default_fill (year weekNumber : Int)
    (config : ComplianceConfig) (allEntries : List DayEntry)
    (hreq : 1 ≤ config.requiredOfficeDaysPerWeek)
    (hnone : ∀ e ∈ allEntries,
      ¬((getWeekBounds year weekNumber).1 ≤ e.date ∧
        e.date ≤ (getWeekBounds year weekNumber).2)) :
    (calculateWeekSummary year weekNumber config allEntries).days =
      (getWeekdays year weekNumber).map
        (fun d => ⟨d, WorkLocation.home, none⟩) ∧
    (calculateWeekSummary year weekNumber config allEntries).days.length
      = 5 ∧
    (calculateWeekSummary year weekNumber config allEntries).days.length =
      (getWeekdays year weekNumber).length ∧
    (calculateWeekSummary year weekNumber config allEntries).officeDays
      = 0 ∧
    (calculateWeekSummary year weekNumber config allEntries).isCompliant
      = false := by
  have hdays : (calculateWeekSummary year weekNumber config allEntries).days =
      (getWeekdays year weekNumber).map
        (fun d => (⟨d, WorkLocation.home, none⟩ : DayEntry)) := by
    rw [weekSummary_days_char]
    apply List.map_congr_left
    intro d hd
    have hdb := mem_getWeekdays_bounds hd
    have hnil : allEntries.filter (fun e => decide (e.date = d)) = [] := by
      rw [List.filter_eq_nil_iff]
      intro e he
      simp only [decide_eq_true_eq]
      intro hed
      exact hnone e he ⟨by omega, by omega⟩
    rw [hnil]
    rfl
  have hlen5 : (getWeekdays year weekNumber).length = 5 := by
    rw [getWeekdays_eq]
    rfl
  have hoff : (calculateWeekSummary year weekNumber config
      allEntries).officeDays = 0 := by
    rw [weekSummary_officeDays, hdays]
    have hfe : ((getWeekdays year weekNumber).map
        (fun d => (⟨d, WorkLocation.home, none⟩ : DayEntry))).filter
        (fun e => decide (e.location = WorkLocation.office)) = [] := by
      rw [List.filter_eq_nil_iff]
      intro e he
      obtain ⟨d, _, rfl⟩ := List.mem_map.mp he
      simp
    rw [hfe]
    rfl
  refine ⟨hdays, ?_, ?_, hoff, ?_⟩
  · rw [hdays, List.length_map, hlen5]
  · rw [hdays, List.length_map]
  · rw [weekSummary_isCompliant, hoff]
    simp only [decide_eq_false_iff_not]
    omega

theorem claim_C7_default_fill_witness :
    (calculateWeekSummary 2025 2 ⟨1, 8, 7⟩
        [⟨0, WorkLocation.office, none⟩]).days =
      (getWeekdays 2025 2).map (fun d => ⟨d, WorkLocation.home, none⟩) ∧
    (calculateWeekSummary 2025 2 ⟨1, 8, 7⟩
        [⟨0, WorkLocation.office, none⟩]).days.length = 5 ∧
    (calculateWeekSummary 2025 2 ⟨1, 8, 7⟩
        [⟨0, WorkLocation.office, none⟩]).days.length =
      (getWeekdays 2025 2).length ∧
    (calculateWeekSummary 2025 2 ⟨1, 8, 7⟩
        [⟨0, WorkLocation.office, none⟩]).officeDays = 0 ∧
    (calculateWeekSummary 2025 2 ⟨1, 8, 7⟩
        [⟨0, WorkLocation.office, none⟩]).isCompliant = false :=
  claim_C7_default_fill 2025 2 ⟨1, 8, 7⟩ [⟨0, WorkLocation.office, none⟩]
    (by decide) (by decide)

/-- Claim C8: entries dated on a weekend never appear in the `days` list and never
contribute to `officeDays` — the summary's `days` and `officeDays` are
unchanged when all non-weekday entries are removed from `allEntries`, even
for office entries inside the week's `[startDate, endDate]` range. -/
theorem claim_C8_weekend_excluded (year weekNumber : Int)
    (config : ComplianceConfig) (allEntries : List DayEntry) :
    (∀ e ∈ allEntries, isWeekday e.date = false →
      e ∉ (calculateWeekSummary year weekNumber config allEntries).days) ∧
    (calculateWeekSummary year weekNumber config allEntries).days =
      (calculateWeekSummary year weekNumber config
        (allEntries.filter (fun e => isWeekday e.date))).days ∧
    (calculateWeekSummary year weekNumber config allEntries).officeDays =
      (calculateWeekSummary year weekNumber config
        (allEntries.filter (fun e => isWeekday e.date))).officeDays := by
  have hdayseq : (calculateWeekSummary year weekNumber config
        allEntries).days =
      (calculateWeekSummary year weekNumber config
        (allEntries.filter (fun e => isWeekday e.date))).days := by
    rw [weekSummary_days_char, weekSummary_days_char]
    apply List.map_congr_left
    intro d hd
    have hwd := mem_getWeekdays_isWeekday hd
    have hlist : allEntries.filter (fun e => decide (e.date = d)) =
        (allEntries.filter (fun e => isWeekday e.date)).filter
          (fun e => decide (e.date = d)) := by
      rw [List.filter_filter]
      apply List.filter_congr
      intro e he
      by_cases hx : e.date = d
      · have b1 : decide (e.date = d) = true := by simp [hx]
        have b2 : isWeekday e.date = true := by rw [hx]; exact hwd
        rw [b1, b2]
        rfl
      · have b1 : decide (e.date = d) = false := by simp [hx]
        rw [b1, Bool.false_and]
    rw [hlist]
  refine ⟨?_, hdayseq, ?_⟩
  · intro e he hwk hmem
    rw [weekSummary_days_char] at hmem
    obtain ⟨d, hd, hval⟩ := List.mem_map.mp hmem
    have hwd := mem_getWeekdays_isWeekday hd
    cases hlast : (allEntries.filter (fun e2 => decide (e2.date = d))).getLast?
      with
    | none =>
      rw [hlast] at hval
      simp only [Option.getD_none] at hval
      rw [← hval] at hwk
      have hf : isWeekday d = false := hwk
      rw [hf] at hwd
      cases hwd
    | some e2 =>
      rw [hlast] at hval
      simp only [Option.getD_some] at hval
      have he2 : e2 ∈ allEntries.filter (fun e2 => decide (e2.date = d)) :=
        getLast?_mem_of_eq hlast
      have hdate : e2.date = d := by
        have hp := List.of_mem_filter he2
        simpa using hp
      rw [hval] at hdate
      rw [hdate] at hwk
      rw [hwk] at hwd
      cases hwd
  · rw [weekSummary_officeDays, weekSummary_officeDays, hdayseq]

theorem claim_C8_weekend_excluded_witness :
    (⟨(getWeekBounds 2025 2).1 + 5, WorkLocation.office, none⟩ : DayEntry) ∉
      (calculateWeekSummary 2025 2 ⟨2, 8, 7⟩
        [⟨(getWeekBounds 2025 2).1 + 5, WorkLocation.office, none⟩]).days :=
  (claim_C8_weekend_excluded 2025 2 ⟨2, 8, 7⟩
      [⟨(getWeekBounds 2025 2).1 + 5, WorkLocation.office, none⟩]).1
    ⟨(getWeekBounds 2025 2).1 + 5, WorkLocation.office, none⟩
    (by decide) (by decide)

end RTO

